import Mathlib

/-!
# tspga: the genetic-algorithm driver for the travelling salesman problem

A shallow embedding of `src/tspga.cpp` (the driver `main`, `terminate`, `log`)
over an abstract `Population`, together with the two genetic operators of an
`Individual` (crossover, mutate), which live in modules that are not part of the
sources at hand and are therefore modelled from the written specification.

Conventions.

* `int` variables are `Int`; the driver keeps `num_iterations` and
  `stale_iterations` inside `[0, 10000]` (proved below), so no wrap-around
  occurs.
* `double` values are the type `Double` below: a finite value is the rational
  it denotes, next to the two infinities and NaN. The driver only subtracts an
  integer constant from a fitness and compares; IEEE-754 rounding is monotone
  and keeps the sign of an exact difference of two finite doubles, so the
  comparisons on the rounded values agree with the exact ones used here.
* The calls made on the population, and the results of the termination check,
  are recorded in a trace (`calls`), which is the only part of the state that
  does not exist in the C++ program.
-/

namespace Tspga

/-! ## Doubles -/

/-- A `double`: a finite value, plus or minus infinity, or NaN. -/
inductive Double where
  | fin (q : ℚ)
  | pinf
  | ninf
  | nan
  deriving DecidableEq

namespace Double

/-- Conversion `int → double` (exact for the constants of the driver). -/
def ofInt (z : Int) : Double := fin (z : ℚ)

/-- IEEE subtraction `a - b`. -/
def sub : Double → Double → Double
  | nan, _ => nan
  | _, nan => nan
  | fin a, fin b => fin (a - b)
  | fin _, pinf => ninf
  | fin _, ninf => pinf
  | pinf, pinf => nan
  | pinf, _ => pinf
  | ninf, ninf => nan
  | ninf, _ => ninf

/-- IEEE comparison `a <= b` (false as soon as one side is NaN). -/
def le : Double → Double → Bool
  | nan, _ => false
  | _, nan => false
  | ninf, _ => true
  | _, pinf => true
  | pinf, _ => false
  | _, ninf => false
  | fin a, fin b => decide (a ≤ b)

/-- IEEE comparison `a == b` (NaN is equal to nothing, itself included). -/
def eq : Double → Double → Bool
  | fin a, fin b => decide (a = b)
  | pinf, pinf => true
  | ninf, ninf => true
  | _, _ => false

end Double

/-! ## Constants of `tspga.cpp` -/

/-- `#define EPSILON 0`: a percent (of the best path). -/
def EPSILON : Int := 0
/-- `#define BEST_PATH 847`: brute force tsp solution. -/
def BEST_PATH : Int := 847
/-- `#define MAX_ITERATIONS 10000`: stop evolve loop when reached. -/
def MAX_ITERATIONS : Int := 10000
/-- `#define MAX_STALE 1000`: max consecutive iterations allowed without improvement. -/
def MAX_STALE : Int := 1000
/-- `#define PLOT_ITER false`. -/
def PLOT_ITER : Bool := false
/-- `#define PLOT_FIT false`. -/
def PLOT_FIT : Bool := false

/-! ## `terminate` -/

/-- The function `terminate` of `tspga.cpp`, lines 155-166. -/
def terminate (num_iterations : Int) (highest_fitness : Double) (stale_iterations : Int) : Bool :=
  if num_iterations = MAX_ITERATIONS then true
  else if Double.le (Double.sub highest_fitness (Double.ofInt BEST_PATH))
      (Double.ofInt (EPSILON * BEST_PATH)) then true
  else if stale_iterations = MAX_STALE then true
  else false

/-! ## The population, as seen by the driver -/

/-- Modelled from the spec: the interface of `Population` (`population.h` is not among the
sources). The four lifecycle operations Genesis, Evaluate, Merge and Reproduce transform the
population in an arbitrary way; `Fittest().Raw_Fitness()` and `Avg_Fitness()` are the two
aggregate queries of the current generation. The type `σ` of population states is arbitrary,
so it may hold the random-number state as well. -/
structure Population (σ : Type) where
  Genesis : σ → σ
  Evaluate : σ → σ
  Merge : Bool → σ → σ
  Reproduce : σ → σ
  Fittest_Raw_Fitness : σ → Double
  Avg_Fitness : σ → Double

/-- Modelled from the spec: the default argument of `Population::Merge`, declared in the
absent `population.h`; the spec gives the signature as `Merge(isInitial = false)`. -/
def Merge_default_isInitial : Bool := false

/-- What the trace records: a call made on the population, or the result of one evaluation
of `terminate` in the loop condition. -/
inductive Event where
  | Genesis
  | Evaluate
  | Merge (isInitial : Bool)
  | Reproduce
  | Fittest
  | Avg_Fitness
  | terminate (result : Bool)
  deriving DecidableEq

/-- The variables of `main` that matter to the evolution (the timers are left out), and the
trace of calls made so far. -/
structure MainState (σ : Type) where
  tsp_pop : σ
  num_iterations : Int
  last_fitness : Double
  stale_iterations : Int
  calls : List Event

variable {σ : Type}

/-- The call `tsp_pop.Fittest().Raw_Fitness()`: the value read, and the state with the call
recorded. -/
def readFittest (P : Population σ) (st : MainState σ) : Double × MainState σ :=
  (P.Fittest_Raw_Fitness st.tsp_pop, { st with calls := st.calls ++ [Event.Fittest] })

/-- The call `tsp_pop.Avg_Fitness()`. -/
def readAvg (P : Population σ) (st : MainState σ) : Double × MainState σ :=
  (P.Avg_Fitness st.tsp_pop, { st with calls := st.calls ++ [Event.Avg_Fitness] })

/-- The function `log` of `tspga.cpp`, lines 174-180: it prints the generation, the average
fitness and the fittest individual, so it calls `Avg_Fitness()` and then `Fittest()`. -/
def log (P : Population σ) (st : MainState σ) : MainState σ :=
  let st1 := (readAvg P st).2
  (readFittest P st1).2

/-- Lines 61-63 and 75-78 of `main`: the initialisation of the counters and the
Genesis, Evaluate, Merge(true) sequence on the freshly constructed population `pop0`. -/
def setup (P : Population σ) (pop0 : σ) : MainState σ :=
  { tsp_pop := P.Merge true (P.Evaluate (P.Genesis pop0))
    num_iterations := 0
    last_fitness := Double.ofInt 0
    stale_iterations := 0
    calls := [Event.Genesis, Event.Evaluate, Event.Merge true] }

/-- The loop condition of line 88: read the fittest raw fitness, call `terminate`; the
Boolean is the result of `terminate` (the loop goes on when it is false). -/
def loopCond (P : Population σ) (st : MainState σ) : Bool × MainState σ :=
  let (f, st1) := readFittest P st
  let b := terminate st1.num_iterations f st1.stale_iterations
  (b, { st1 with calls := st1.calls ++ [Event.terminate b] })

/-- The body of the evolve loop, lines 90-127. -/
def loopBody (P : Population σ) (st : MainState σ) : MainState σ :=
  -- lines 94-96
  let st := { st with tsp_pop := P.Reproduce st.tsp_pop, calls := st.calls ++ [Event.Reproduce] }
  let st := { st with tsp_pop := P.Evaluate st.tsp_pop, calls := st.calls ++ [Event.Evaluate] }
  let st := { st with tsp_pop := P.Merge Merge_default_isInitial st.tsp_pop,
                      calls := st.calls ++ [Event.Merge Merge_default_isInitial] }
  -- line 103
  let st := { st with num_iterations := st.num_iterations + 1 }
  -- lines 106-112
  let (f, st) := readFittest P st
  let st :=
    if Double.eq f st.last_fitness then
      { st with stale_iterations := st.stale_iterations + 1 }
    else
      let st := { st with stale_iterations := 0 }
      let (g, st) := readFittest P st
      { st with last_fitness := g }
  -- lines 115-117
  let st := if st.num_iterations % 10 = 0 then log P st else st
  -- lines 120-127
  if PLOT_ITER || PLOT_FIT then
    if PLOT_ITER then st
    else if PLOT_FIT then (readAvg P (readFittest P st).2).2
    else st
  else st

/-- The `while` loop of lines 88-128. One unit of fuel pays for one evaluation of the loop
condition; the result is the state at the exit of the loop. -/
def evolve (P : Population σ) : Nat → MainState σ → Option (MainState σ)
  | 0, _ => none
  | fuel + 1, st =>
    let (b, st1) := loopCond P st
    if b then some st1 else evolve P fuel (loopBody P st1)

/-- Lines 135-145 of `main`: the test of line 136 reads the fittest raw fitness, then the
final `log`. -/
def epilogue (P : Population σ) (st : MainState σ) : MainState σ :=
  log P (readFittest P st).2

/-- The function `main` on the constructed population `pop0`. -/
def main (P : Population σ) (pop0 : σ) (fuel : Nat) : Option (MainState σ) :=
  (evolve P fuel (setup P pop0)).map (epilogue P)

/-- The state at the head of the loop (just before the loop condition is evaluated) after
`n` complete iterations, when the loop does run that many iterations. -/
def loopHead (P : Population σ) (pop0 : σ) : Nat → Option (MainState σ)
  | 0 => some (setup P pop0)
  | n + 1 =>
    match loopHead P pop0 n with
    | none => none
    | some st =>
      let (b, st1) := loopCond P st
      if b then none else some (loopBody P st1)

/-- The population after one run of the loop body. -/
def nextPop (P : Population σ) (pop : σ) : σ :=
  P.Merge Merge_default_isInitial (P.Evaluate (P.Reproduce pop))

/-- The population at the head of the loop after `n` iterations. -/
def popAt (P : Population σ) (pop0 : σ) : Nat → σ
  | 0 => P.Merge true (P.Evaluate (P.Genesis pop0))
  | n + 1 => nextPop P (popAt P pop0 n)

/-- The fittest raw fitness reported after `n` iterations (for `n = 0`: by the initial
generation). -/
def fitnessAt (P : Population σ) (pop0 : σ) (n : Nat) : Double :=
  P.Fittest_Raw_Fitness (popAt P pop0 n)

/-! ## Properties of a trace -/

/-- The lifecycle calls: Genesis, Evaluate, Merge and Reproduce. -/
def Event.isLifecycle : Event → Bool
  | Event.Genesis => true
  | Event.Evaluate => true
  | Event.Merge _ => true
  | Event.Reproduce => true
  | _ => false

/-- The calls to Merge. -/
def Event.isMerge : Event → Bool
  | Event.Merge _ => true
  | _ => false

/-- The calls that need the population to be in the Evaluated state: Merge, Fittest and
Avg_Fitness. -/
def Event.needsEvaluated : Event → Bool
  | Event.Merge _ => true
  | Event.Fittest => true
  | Event.Avg_Fitness => true
  | _ => false

/-- After the calls `pre` the population is in the Evaluated state: an Evaluate has been
called, and neither Genesis nor Reproduce has been called since the most recent one. -/
def EvaluatedAfter (pre : List Event) : Prop :=
  ∃ p1 p2, pre = p1 ++ Event.Evaluate :: p2 ∧ Event.Evaluate ∉ p2 ∧
    Event.Genesis ∉ p2 ∧ Event.Reproduce ∉ p2

/-- Every Merge, Fittest and Avg_Fitness call of the trace is made in the Evaluated state. -/
def QueriesEvaluated (tr : List Event) : Prop :=
  ∀ pre e post, tr = pre ++ e :: post → e.needsEvaluated = true → EvaluatedAfter pre

/-- Every Reproduce of the trace comes right after a termination check that returned false. -/
def ReproduceGuarded (tr : List Event) : Prop :=
  ∀ pre post, tr = pre ++ Event.Reproduce :: post →
    ∃ pre1, pre = pre1 ++ [Event.terminate false]

/-! ## Populations used as concrete inputs -/

/-- A population whose state is the number of generations produced so far (Reproduce adds
one, the other operations leave it alone) and whose fittest raw fitness in generation `g`
is `f g`. -/
def seqPop (f : Nat → Double) : Population Nat where
  Genesis := fun g => g
  Evaluate := fun g => g
  Merge := fun _ g => g
  Reproduce := fun g => g + 1
  Fittest_Raw_Fitness := f
  Avg_Fitness := f

/-- A population stuck at the path length 900 from the initial generation on. -/
def stuckPop : Population Nat := seqPop (fun _ => Double.fin 900)

/-- A population at path length 900 in every generation but generation 1000, where it is
901. -/
def blipPop : Population Nat :=
  seqPop (fun g => if g = 1000 then Double.fin 901 else Double.fin 900)

/-- A population that has the optimal path (length 847) from the start. -/
def solvedPop : Population Nat := seqPop (fun _ => Double.fin 847)

/-! ## The genetic operators of an Individual -/

/-- Modelled from the spec: the sub-segment of a tour (`individual.h` and its implementation
are not among the sources): the cities at the positions `p` with `lo ≤ p < hi`, read from
position `i` on, where `i` is the position of the head of the list. -/
def segment (lo hi : Nat) : Nat → List Nat → List Nat
  | _, [] => []
  | i, a :: as =>
    if lo ≤ i ∧ i < hi then a :: segment lo hi (i + 1) as else segment lo hi (i + 1) as

/-- Modelled from the spec: the construction of the child of a crossover, position by
position from position `i` on: a position of the sub-segment takes the city of parentA at
that position, every other position takes the next city of `rest`, the cities of parentB
still to be placed, in the order of parentB. The child ends early when `rest` runs out,
which cannot happen when both parents are permutations of the same cities. -/
def fillFrom (lo hi : Nat) : Nat → List Nat → List Nat → List Nat
  | _, [], _ => []
  | i, a :: as, rest =>
    if lo ≤ i ∧ i < hi then a :: fillFrom lo hi (i + 1) as rest
    else
      match rest with
      | [] => []
      | c :: cs => c :: fillFrom lo hi (i + 1) as cs

/-- Modelled from the spec: `crossover(parentA, parentB)` of the absent Individual module,
with the randomly chosen sub-segment given as the positions `[lo, hi)`: "copy a contiguous
sub-segment of parentA's tour verbatim into the same sub-segment of the child; fill
remaining child positions, in the order they appear in parentB, skipping any city already
placed from parentA's segment". -/
def crossover (parentA parentB : List Nat) (lo hi : Nat) : List Nat :=
  fillFrom lo hi 0 parentA
    (parentB.filter (fun c => !(segment lo hi 0 parentA).contains c))

/-- Modelled from the spec: the transposition applied by `mutate`, the exchange of the cities
at the positions `i` and `j` of a tour. -/
def swapAt (tour : List Nat) (i j : Nat) : List Nat :=
  (tour.set i (tour.getD j 0)).set j (tour.getD i 0)

/-- Modelled from the spec: `mutate(rate)` of the absent Individual module, with the random
draws made explicit: `draw` is the uniform draw in `[0, 1)` that decides whether the
mutation fires (it does with probability `rate`, clamped to `[0, 1]`), and `i`, `j` are the
two positions drawn: "selects two distinct positions in the tour uniformly at random and
swaps the cities at those positions". -/
def mutate (tour : List Nat) (rate draw : ℚ) (i j : Nat) : List Nat :=
  if draw < max 0 (min 1 rate) then swapAt tour i j else tour

/-! # Theorems -/

/-! ## The loop: projections of one iteration -/

theorem loopCond_fst (P : Population σ) (st : MainState σ) :
    (loopCond P st).1 =
      terminate st.num_iterations (P.Fittest_Raw_Fitness st.tsp_pop) st.stale_iterations := rfl

theorem loopCond_snd (P : Population σ) (st : MainState σ) :
    (loopCond P st).2 = { st with calls := st.calls ++ [Event.Fittest,
      Event.terminate (loopCond P st).1] } := by
  simp [loopCond, readFittest]

theorem loopBody_pop (P : Population σ) (st : MainState σ) :
    (loopBody P st).tsp_pop = nextPop P st.tsp_pop := by
  simp only [loopBody, readFittest, readAvg, log, PLOT_ITER, PLOT_FIT, nextPop]
  split_ifs <;> rfl

theorem loopBody_num (P : Population σ) (st : MainState σ) :
    (loopBody P st).num_iterations = st.num_iterations + 1 := by
  simp only [loopBody, readFittest, readAvg, log, PLOT_ITER, PLOT_FIT]
  split_ifs <;> rfl

theorem loopBody_stale (P : Population σ) (st : MainState σ) :
    (loopBody P st).stale_iterations =
      if Double.eq (P.Fittest_Raw_Fitness (nextPop P st.tsp_pop)) st.last_fitness = true
      then st.stale_iterations + 1 else 0 := by
  simp only [loopBody, readFittest, readAvg, log, PLOT_ITER, PLOT_FIT, nextPop]
  split_ifs <;> rfl

theorem loopBody_last (P : Population σ) (st : MainState σ) :
    (loopBody P st).last_fitness =
      if Double.eq (P.Fittest_Raw_Fitness (nextPop P st.tsp_pop)) st.last_fitness = true
      then st.last_fitness else P.Fittest_Raw_Fitness (nextPop P st.tsp_pop) := by
  simp only [loopBody, readFittest, readAvg, log, PLOT_ITER, PLOT_FIT, nextPop]
  split_ifs <;> rfl

theorem loopBody_calls (P : Population σ) (st : MainState σ) :
    (loopBody P st).calls =
      st.calls ++ ([Event.Reproduce, Event.Evaluate, Event.Merge false, Event.Fittest] ++
        ((if Double.eq (P.Fittest_Raw_Fitness (nextPop P st.tsp_pop)) st.last_fitness = true
          then [] else [Event.Fittest]) ++
         (if (st.num_iterations + 1) % 10 = 0 then [Event.Avg_Fitness, Event.Fittest]
          else []))) := by
  simp only [loopBody, readFittest, readAvg, log, PLOT_ITER, PLOT_FIT, nextPop,
    Merge_default_isInitial]
  split_ifs <;> simp

/-! ## Facts about `terminate` -/

theorem terminate_eq_true_iff (n s : Int) (h : Double) :
    terminate n h s = true ↔
      n = MAX_ITERATIONS ∨
      Double.le (Double.sub h (Double.ofInt BEST_PATH)) (Double.ofInt (EPSILON * BEST_PATH)) = true ∨
      s = MAX_STALE := by
  unfold terminate
  by_cases h1 : n = MAX_ITERATIONS
  · simp [h1]
  · by_cases h2 : Double.le (Double.sub h (Double.ofInt BEST_PATH))
        (Double.ofInt (EPSILON * BEST_PATH)) = true
    · simp [h1, h2]
    · by_cases h3 : s = MAX_STALE
      · simp [h1, h2, h3]
      · simp [h1, h2, h3]

theorem fitness_test_fin (q : ℚ) :
    Double.le (Double.sub (Double.fin q) (Double.ofInt BEST_PATH))
      (Double.ofInt (EPSILON * BEST_PATH)) = true ↔ q - 847 ≤ 0 * 847 := by
  simp [Double.le, Double.sub, Double.ofInt, BEST_PATH, EPSILON]

/-! ## Invariants of the loop -/

theorem loopHead_succ_eq_some {P : Population σ} {pop0 : σ} {n : Nat} {st1 : MainState σ}
    (h : loopHead P pop0 (n + 1) = some st1) :
    ∃ st, loopHead P pop0 n = some st ∧ (loopCond P st).1 = false ∧
      st1 = loopBody P (loopCond P st).2 := by
  simp only [loopHead] at h
  cases hn : loopHead P pop0 n with
  | none => rw [hn] at h; simp at h
  | some st =>
    rw [hn] at h
    simp only at h
    by_cases hb : (loopCond P st).1 = true
    · simp [hb] at h
    · simp only [hb] at h
      simp only [Bool.false_eq_true, if_false, Option.some.injEq] at h
      exact ⟨st, rfl, by simpa using hb, h.symm⟩

theorem loopHead_succ_of {P : Population σ} {pop0 : σ} {n : Nat} {st : MainState σ}
    (h : loopHead P pop0 n = some st) (hb : (loopCond P st).1 = false) :
    loopHead P pop0 (n + 1) = some (loopBody P (loopCond P st).2) := by
  simp [loopHead, h, hb]

theorem loopHead_succ_none {P : Population σ} {pop0 : σ} {n : Nat} {st : MainState σ}
    (h : loopHead P pop0 n = some st) (hb : (loopCond P st).1 = true) :
    loopHead P pop0 (n + 1) = none := by
  simp [loopHead, h, hb]

/-- The counters at the head of the loop after `n` iterations. -/
theorem head_counters (P : Population σ) (pop0 : σ) :
    ∀ (n : Nat) (st : MainState σ), loopHead P pop0 n = some st →
      st.num_iterations = (n : Int) ∧ (n : Int) ≤ MAX_ITERATIONS ∧
      0 ≤ st.stale_iterations ∧ st.stale_iterations ≤ MAX_STALE ∧
      st.tsp_pop = popAt P pop0 n ∧
      (1 ≤ n → st.last_fitness = fitnessAt P pop0 n) := by
  intro n
  induction n with
  | zero =>
    intro st h
    simp only [loopHead, Option.some.injEq] at h
    subst h
    simp [setup, popAt, MAX_ITERATIONS, MAX_STALE]
  | succ n ih =>
    intro st1 h
    obtain ⟨st, hst, hb, rfl⟩ := loopHead_succ_eq_some h
    obtain ⟨h1, h2, h3, h4, h5, _⟩ := ih st hst
    rw [loopCond_fst] at hb
    have hb1 : ¬ terminate st.num_iterations (P.Fittest_Raw_Fitness st.tsp_pop)
        st.stale_iterations = true := by simp [hb]
    rw [terminate_eq_true_iff] at hb1
    simp only [not_or] at hb1
    obtain ⟨hn, _, hs⟩ := hb1
    have hpop : (loopBody P (loopCond P st).2).tsp_pop = popAt P pop0 (n + 1) := by
      rw [loopBody_pop, loopCond_snd]
      simp only [popAt, h5]
    refine ⟨?_, ?_, ?_, ?_, hpop, ?_⟩
    · rw [loopBody_num, loopCond_snd]; simp [h1]
    · rw [h1] at hn
      have : (n : Int) < MAX_ITERATIONS := lt_of_le_of_ne h2 hn
      push_cast; omega
    · rw [loopBody_stale, loopCond_snd]
      simp only
      split_ifs
      · omega
      · exact le_refl 0
    · rw [loopBody_stale, loopCond_snd]
      simp only
      have : st.stale_iterations < MAX_STALE := lt_of_le_of_ne h4 hs
      split_ifs
      · omega
      · simp [MAX_STALE]
    · intro _
      rw [loopBody_last, loopCond_snd]
      simp only
      have hf : P.Fittest_Raw_Fitness (nextPop P st.tsp_pop) = fitnessAt P pop0 (n + 1) := by
        simp only [fitnessAt, popAt, h5]
      rw [hf]
      split_ifs with he
      · revert he
        cases hx : fitnessAt P pop0 (n + 1) <;> cases hy : st.last_fitness <;>
          simp [Double.eq]
        intro h; exact h.symm
      · rfl

/-! ## Generic facts about traces -/

theorem evaluatedAfter_evaluate (tr : List Event) :
    EvaluatedAfter (tr ++ [Event.Evaluate]) :=
  ⟨tr, [], rfl, by simp, by simp, by simp⟩

theorem evaluatedAfter_snoc {tr : List Event} (h : EvaluatedAfter tr) {e : Event}
    (h0 : e ≠ Event.Evaluate) (h1 : e ≠ Event.Genesis) (h2 : e ≠ Event.Reproduce) :
    EvaluatedAfter (tr ++ [e]) := by
  obtain ⟨p1, p2, rfl, h3, h4, h5⟩ := h
  refine ⟨p1, p2 ++ [e], by simp, ?_, ?_, ?_⟩
  · simp only [List.mem_append, List.mem_singleton, not_or]
    exact ⟨h3, fun h => h0 h.symm⟩
  · simp only [List.mem_append, List.mem_singleton, not_or]
    exact ⟨h4, fun h => h1 h.symm⟩
  · simp only [List.mem_append, List.mem_singleton, not_or]
    exact ⟨h5, fun h => h2 h.symm⟩

/-- The events that keep the Evaluated state: anything but Genesis and Reproduce. -/
theorem evaluatedAfter_snoc_any {tr : List Event} (h : EvaluatedAfter tr) {e : Event}
    (h1 : e ≠ Event.Genesis) (h2 : e ≠ Event.Reproduce) :
    EvaluatedAfter (tr ++ [e]) := by
  by_cases h0 : e = Event.Evaluate
  · subst h0; exact evaluatedAfter_evaluate tr
  · exact evaluatedAfter_snoc h h0 h1 h2

theorem split_snoc {tr pre post : List Event} {e x : Event}
    (h : tr ++ [e] = pre ++ x :: post) :
    (post = [] ∧ pre = tr ∧ x = e) ∨ ∃ post1, post = post1 ++ [e] ∧ tr = pre ++ x :: post1 := by
  rcases List.eq_nil_or_concat post with hp | ⟨post1, z, hp⟩
  · subst hp
    left
    have h1 : tr ++ [e] = pre ++ [x] := h
    have h2 := List.append_inj' h1 rfl
    refine ⟨rfl, h2.1.symm, ?_⟩
    have := h2.2
    simp at this
    exact this.symm
  · right
    rw [List.concat_eq_append] at hp
    subst hp
    have h1 : tr ++ [e] = (pre ++ x :: post1) ++ [z] := by
      rw [h]; simp
    have h2 := List.append_inj' h1 rfl
    have h3 : e = z := by
      have := h2.2
      simp at this
      exact this
    subst h3
    exact ⟨post1, rfl, h2.1⟩

theorem queriesEvaluated_snoc {tr : List Event} (h : QueriesEvaluated tr) {e : Event}
    (he : e.needsEvaluated = true → EvaluatedAfter tr) :
    QueriesEvaluated (tr ++ [e]) := by
  intro pre x post hsplit hx
  rcases split_snoc hsplit with ⟨_, hpre, hxe⟩ | ⟨post1, _, htr⟩
  · subst hpre; subst hxe; exact he hx
  · exact h pre x post1 htr hx

theorem reproduceGuarded_snoc {tr : List Event} (h : ReproduceGuarded tr) {e : Event}
    (he : e = Event.Reproduce → ∃ pre1, tr = pre1 ++ [Event.terminate false]) :
    ReproduceGuarded (tr ++ [e]) := by
  intro pre post hsplit
  rcases split_snoc hsplit with ⟨_, hpre, hxe⟩ | ⟨post1, _, htr⟩
  · subst hpre; exact he hxe.symm
  · exact h pre post1 htr

/-- Appending calls other than Genesis and Reproduce to a trace whose population is in the
Evaluated state keeps all three trace properties. -/
theorem trace_append_quiet (l : List Event) :
    ∀ tr : List Event, QueriesEvaluated tr → EvaluatedAfter tr → ReproduceGuarded tr →
      (∀ e ∈ l, e ≠ Event.Genesis ∧ e ≠ Event.Reproduce) →
      QueriesEvaluated (tr ++ l) ∧ EvaluatedAfter (tr ++ l) ∧ ReproduceGuarded (tr ++ l) := by
  induction l with
  | nil => intro tr h1 h2 h3 _; simpa using ⟨h1, h2, h3⟩
  | cons e l ih =>
    intro tr h1 h2 h3 hl
    have he := hl e (List.mem_cons_self _ _)
    have := ih (tr ++ [e]) (queriesEvaluated_snoc h1 (fun _ => h2))
      (evaluatedAfter_snoc_any h2 he.1 he.2)
      (reproduceGuarded_snoc h3 (fun h => absurd h he.2))
      (fun x hx => hl x (List.mem_cons_of_mem _ hx))
    simpa using this

/-- One round of the loop seen on the trace: the condition (returning false), then
Reproduce, Evaluate, Merge and the reads that follow. -/
theorem trace_append_round {tr : List Event} (h1 : QueriesEvaluated tr)
    (h2 : EvaluatedAfter tr) (h3 : ReproduceGuarded tr) (l : List Event)
    (hl : ∀ e ∈ l, e ≠ Event.Genesis ∧ e ≠ Event.Reproduce) :
    QueriesEvaluated (tr ++ [Event.Fittest, Event.terminate false] ++
        ([Event.Reproduce, Event.Evaluate] ++ l)) ∧
      EvaluatedAfter (tr ++ [Event.Fittest, Event.terminate false] ++
        ([Event.Reproduce, Event.Evaluate] ++ l)) ∧
      ReproduceGuarded (tr ++ [Event.Fittest, Event.terminate false] ++
        ([Event.Reproduce, Event.Evaluate] ++ l)) := by
  obtain ⟨a1, a2, a3⟩ := trace_append_quiet [Event.Fittest, Event.terminate false] tr h1 h2 h3
    (by simp)
  have b1 : QueriesEvaluated (tr ++ [Event.Fittest, Event.terminate false] ++ [Event.Reproduce]) :=
    queriesEvaluated_snoc a1 (fun h => by simp [Event.needsEvaluated] at h)
  have b3 : ReproduceGuarded (tr ++ [Event.Fittest, Event.terminate false] ++ [Event.Reproduce]) :=
    reproduceGuarded_snoc a3 (fun _ => ⟨tr ++ [Event.Fittest], by simp⟩)
  have c1 := queriesEvaluated_snoc b1 (e := Event.Evaluate)
    (fun h => by simp [Event.needsEvaluated] at h)
  have c2 := evaluatedAfter_evaluate
    (tr ++ [Event.Fittest, Event.terminate false] ++ [Event.Reproduce])
  have c3 := reproduceGuarded_snoc b3 (e := Event.Evaluate) (fun h => by simp at h)
  have := trace_append_quiet l _ c1 c2 c3 hl
  simpa using this

/-- The lifecycle calls of `k` iterations of the loop. -/
theorem flatten_replicate_succ (k : Nat) (b : List Event) :
    (List.replicate (k + 1) b).flatten = (List.replicate k b).flatten ++ b := by
  rw [List.replicate_succ', List.flatten_append]
  simp

theorem setup_trace (P : Population σ) (pop0 : σ) :
    QueriesEvaluated (setup P pop0).calls ∧ EvaluatedAfter (setup P pop0).calls ∧
      ReproduceGuarded (setup P pop0).calls := by
  have q0 : QueriesEvaluated [] := by
    intro pre e post h _
    simp at h
  have r0 : ReproduceGuarded [] := by
    intro pre post h
    simp at h
  have q1 : QueriesEvaluated ([] ++ [Event.Genesis]) :=
    queriesEvaluated_snoc q0 (fun h => by simp [Event.needsEvaluated] at h)
  have r1 : ReproduceGuarded ([] ++ [Event.Genesis]) :=
    reproduceGuarded_snoc r0 (fun h => by simp at h)
  have q2 : QueriesEvaluated ([] ++ [Event.Genesis] ++ [Event.Evaluate]) :=
    queriesEvaluated_snoc q1 (fun h => by simp [Event.needsEvaluated] at h)
  have r2 : ReproduceGuarded ([] ++ [Event.Genesis] ++ [Event.Evaluate]) :=
    reproduceGuarded_snoc r1 (fun h => by simp at h)
  have e2 : EvaluatedAfter ([] ++ [Event.Genesis] ++ [Event.Evaluate]) :=
    evaluatedAfter_evaluate _
  have := trace_append_quiet [Event.Merge true] _ q2 e2 r2 (by simp)
  simpa [setup] using this

/-- The trace at the head of the loop after `n` iterations. -/
theorem head_trace (P : Population σ) (pop0 : σ) :
    ∀ (n : Nat) (st : MainState σ), loopHead P pop0 n = some st →
      st.calls.filter Event.isLifecycle =
        [Event.Genesis, Event.Evaluate, Event.Merge true] ++
          (List.replicate n [Event.Reproduce, Event.Evaluate, Event.Merge false]).flatten ∧
      QueriesEvaluated st.calls ∧ EvaluatedAfter st.calls ∧ ReproduceGuarded st.calls := by
  intro n
  induction n with
  | zero =>
    intro st h
    simp only [loopHead, Option.some.injEq] at h
    subst h
    refine ⟨?_, setup_trace P pop0⟩
    simp [setup, Event.isLifecycle]
  | succ n ih =>
    intro st1 h
    obtain ⟨st, hst, hb, rfl⟩ := loopHead_succ_eq_some h
    obtain ⟨h1, h2, h3, h4⟩ := ih st hst
    have hcalls : (loopBody P (loopCond P st).2).calls =
        st.calls ++ [Event.Fittest, Event.terminate false] ++
          ([Event.Reproduce, Event.Evaluate] ++ ([Event.Merge false, Event.Fittest] ++
            ((if Double.eq (P.Fittest_Raw_Fitness (nextPop P st.tsp_pop)) st.last_fitness = true
              then [] else [Event.Fittest]) ++
             (if (st.num_iterations + 1) % 10 = 0 then [Event.Avg_Fitness, Event.Fittest]
              else [])))) := by
      rw [loopBody_calls, loopCond_snd, hb]
      simp
    rw [hcalls]
    refine ⟨?_, ?_⟩
    · rw [flatten_replicate_succ]
      simp only [List.filter_append, h1]
      split_ifs <;> simp [Event.isLifecycle]
    · apply trace_append_round h2 h3 h4
      intro e he
      simp only [List.mem_append, List.mem_cons, List.mem_singleton, List.not_mem_nil,
        or_false] at he
      rcases he with (he | he) | he | he
      · subst he; simp
      · subst he; simp
      · split_ifs at he
        · simp at he
        · simp only [List.mem_singleton] at he; subst he; simp
      · split_ifs at he
        · simp only [List.mem_cons, List.mem_singleton, List.not_mem_nil, or_false] at he
          rcases he with he | he <;> subst he <;> simp
        · simp at he

/-- What the staleness test does guarantee: after the first iteration, the loop never
executes more than `MAX_STALE` consecutive iterations each of which leaves the fittest raw
fitness equal (`==`) to what it was before that iteration. -/
theorem stale_run_bound (P : Population σ) (pop0 : σ) (n : Nat) (hn : 1 ≤ n) :
    ∀ (m : Nat) (st : MainState σ), loopHead P pop0 (n + m) = some st →
      (∀ j, n < j → j ≤ n + m →
        Double.eq (fitnessAt P pop0 j) (fitnessAt P pop0 (j - 1)) = true) →
      (m : Int) ≤ st.stale_iterations ∧ (m : Int) ≤ MAX_STALE := by
  intro m
  induction m with
  | zero =>
    intro st h _
    obtain ⟨_, _, h3, _⟩ := head_counters P pop0 _ st h
    exact ⟨by simpa using h3, by simp [MAX_STALE]⟩
  | succ m ih =>
    intro st1 h hrun
    obtain ⟨st, hst, hb, rfl⟩ := loopHead_succ_eq_some (n := n + m) h
    obtain ⟨h1, _⟩ := ih st hst (fun j hj1 hj2 => hrun j hj1 (by omega))
    obtain ⟨_, _, _, _, hpop, hlast⟩ := head_counters P pop0 _ st hst
    have hle := (head_counters P pop0 _ _ h).2.2.2.1
    have heq : Double.eq (P.Fittest_Raw_Fitness (nextPop P st.tsp_pop)) st.last_fitness
        = true := by
      rw [hlast (by omega), hpop]
      exact hrun (n + m + 1) (by omega) (le_refl _)
    have hs : (loopBody P (loopCond P st).2).stale_iterations = st.stale_iterations + 1 := by
      rw [loopBody_stale, loopCond_snd]
      simp only [if_pos heq]
    rw [hs] at hle ⊢
    constructor
    · push_cast; omega
    · push_cast; omega

/-! ## The loop as a whole -/

theorem evolve_succ (P : Population σ) (fuel : Nat) (st : MainState σ) :
    evolve P (fuel + 1) st =
      if (loopCond P st).1 = true then some (loopCond P st).2
      else evolve P fuel (loopBody P (loopCond P st).2) := rfl

/-- With enough fuel the loop started at the head reached after `n` iterations stops at a
later head, the first one whose termination check returns true. -/
theorem evolve_from_head (P : Population σ) (pop0 : σ) :
    ∀ (fuel n : Nat) (st : MainState σ), loopHead P pop0 n = some st → 10000 < n + fuel →
      ∃ (k : Nat) (st1 : MainState σ), n ≤ k ∧ k ≤ 10000 ∧ loopHead P pop0 k = some st1 ∧
        (loopCond P st1).1 = true ∧ evolve P fuel st = some (loopCond P st1).2 := by
  intro fuel
  induction fuel with
  | zero =>
    intro n st h hlt
    have := (head_counters P pop0 n st h).2.1
    simp only [MAX_ITERATIONS] at this
    omega
  | succ fuel ih =>
    intro n st h hlt
    have hn := (head_counters P pop0 n st h).2.1
    simp only [MAX_ITERATIONS] at hn
    by_cases hb : (loopCond P st).1 = true
    · refine ⟨n, st, le_refl n, by omega, h, hb, ?_⟩
      rw [evolve_succ, if_pos hb]
    · have hb1 : (loopCond P st).1 = false := by simpa using hb
      obtain ⟨k, st1, h1, h2, h3, h4, h5⟩ :=
        ih (n + 1) (loopBody P (loopCond P st).2) (loopHead_succ_of h hb1) (by omega)
      refine ⟨k, st1, by omega, h2, h3, h4, ?_⟩
      rw [evolve_succ, if_neg hb, h5]

/-- The run of `main`: the loop exits at the head reached after some `k ≤ 10000`
iterations, and `main` returns after the epilogue. -/
theorem main_result (P : Population σ) (pop0 : σ) (extra : Nat) :
    ∃ (k : Nat) (st : MainState σ), k ≤ 10000 ∧ loopHead P pop0 k = some st ∧
      (loopCond P st).1 = true ∧
      main P pop0 (10001 + extra) = some (epilogue P (loopCond P st).2) := by
  obtain ⟨k, st1, _, h2, h3, h4, h5⟩ :=
    evolve_from_head P pop0 (10001 + extra) 0 (setup P pop0) rfl (by omega)
  exact ⟨k, st1, h2, h3, h4, by simp [main, h5]⟩

theorem epilogue_calls (P : Population σ) (st : MainState σ) :
    (epilogue P (loopCond P st).2).calls =
      st.calls ++ [Event.Fittest, Event.terminate (loopCond P st).1, Event.Fittest,
        Event.Avg_Fitness, Event.Fittest] := by
  simp [epilogue, log, readFittest, readAvg, loopCond]

theorem epilogue_num (P : Population σ) (st : MainState σ) :
    (epilogue P (loopCond P st).2).num_iterations = st.num_iterations := by
  simp [epilogue, log, readFittest, readAvg, loopCond]

/-- The trace of a finished run has the three trace properties. -/
theorem final_trace {P : Population σ} {pop0 : σ} {k : Nat} {st : MainState σ}
    (h : loopHead P pop0 k = some st) :
    QueriesEvaluated (epilogue P (loopCond P st).2).calls ∧
      ReproduceGuarded (epilogue P (loopCond P st).2).calls := by
  obtain ⟨_, h2, h3, h4⟩ := head_trace P pop0 k st h
  rw [epilogue_calls]
  have := trace_append_quiet [Event.Fittest, Event.terminate (loopCond P st).1, Event.Fittest,
    Event.Avg_Fitness, Event.Fittest] st.calls h2 h3 h4 (by simp)
  exact ⟨this.1, this.2.2⟩

theorem final_lifecycle {P : Population σ} {pop0 : σ} {k : Nat} {st : MainState σ}
    (h : loopHead P pop0 k = some st) :
    (epilogue P (loopCond P st).2).calls.filter Event.isLifecycle =
      [Event.Genesis, Event.Evaluate, Event.Merge true] ++
        (List.replicate k [Event.Reproduce, Event.Evaluate, Event.Merge false]).flatten := by
  obtain ⟨h1, _⟩ := head_trace P pop0 k st h
  rw [epilogue_calls, List.filter_append, h1]
  simp [Event.isLifecycle]

theorem count_rounds (k : Nat) :
    (List.replicate k [Event.Reproduce, Event.Evaluate, Event.Merge false]).flatten.count
        (Event.Merge true) = 0 ∧
    (List.replicate k [Event.Reproduce, Event.Evaluate, Event.Merge false]).flatten.count
        Event.Reproduce = k := by
  induction k with
  | zero => simp
  | succ k ih =>
    rw [flatten_replicate_succ, List.count_append, List.count_append, ih.1, ih.2]
    constructor
    · decide
    · simp [List.count_cons]

theorem count_eq_count_lifecycle (tr : List Event) (e : Event) (he : e.isLifecycle = true) :
    tr.count e = (tr.filter Event.isLifecycle).count e := by
  induction tr with
  | nil => rfl
  | cons a tr ih =>
    by_cases ha : a.isLifecycle = true
    · simp [List.filter_cons, ha, List.count_cons, ih]
    · have hne : (a == e) = false := by
        rw [beq_eq_false_iff_ne]
        intro hae; subst hae; exact ha he
      simp [List.filter_cons, ha, List.count_cons, ih, hne]

theorem filter_merge_lifecycle (tr : List Event) :
    tr.filter Event.isMerge = (tr.filter Event.isLifecycle).filter Event.isMerge := by
  rw [List.filter_filter]
  congr 1
  funext e
  cases e <;> rfl

/-! ## The genetic operators -/

theorem segment_sublist (lo hi : Nat) :
    ∀ (as : List Nat) (i : Nat), (segment lo hi i as).Sublist as := by
  intro as
  induction as with
  | nil => intro i; exact List.Sublist.slnil
  | cons a as ih =>
    intro i
    simp only [segment]
    split_ifs
    · exact (ih (i + 1)).cons₂ a
    · exact (ih (i + 1)).cons a

/-- When `rest` has exactly as many cities as there are positions outside the sub-segment,
the child is made of the sub-segment of parentA and of `rest`. -/
theorem fillFrom_perm (lo hi : Nat) :
    ∀ (as : List Nat) (i : Nat) (rest : List Nat),
      rest.length + (segment lo hi i as).length = as.length →
      (fillFrom lo hi i as rest).Perm (segment lo hi i as ++ rest) := by
  intro as
  induction as with
  | nil =>
    intro i rest h
    simp only [segment, List.length_nil, add_zero, List.length_eq_zero] at h
    subst h
    simp [fillFrom, segment]
  | cons a as ih =>
    intro i rest h
    by_cases hc : lo ≤ i ∧ i < hi
    · simp only [segment, fillFrom, if_pos hc] at h ⊢
      simp only [List.length_cons] at h
      exact (ih (i + 1) rest (by omega)).cons a
    · simp only [segment, fillFrom, if_neg hc] at h ⊢
      simp only [List.length_cons] at h
      have hle := (segment_sublist lo hi as (i + 1)).length_le
      cases rest with
      | nil => simp only [List.length_nil] at h; omega
      | cons c cs =>
        simp only [List.length_cons] at h
        exact ((ih (i + 1) cs (by omega)).cons c).trans List.perm_middle.symm

/-- The cities of parentB that are in the sub-segment of parentA are the sub-segment, up to
their order, when the parents hold the same cities, once each. -/
theorem filter_segment_perm {A B : List Nat} (hA : A.Nodup) (hAB : B.Perm A) (seg : List Nat)
    (hs : seg.Sublist A) : (B.filter (fun c => seg.contains c)).Perm seg := by
  rw [List.perm_ext_iff_of_nodup ((hAB.nodup_iff.mpr hA).filter _) (hs.nodup hA)]
  intro c
  simp only [List.mem_filter, List.contains_iff_exists_mem_beq, beq_iff_eq, exists_eq_right']
  constructor
  · exact fun h => h.2
  · exact fun h => ⟨hAB.symm.subset (hs.subset h), h⟩

theorem rest_length {A B : List Nat} (hA : A.Nodup) (hAB : B.Perm A) (seg : List Nat)
    (hs : seg.Sublist A) :
    (B.filter (fun c => !seg.contains c)).length + seg.length = A.length := by
  have h1 := (List.filter_append_perm (fun c => seg.contains c) B).length_eq
  have h2 := (filter_segment_perm hA hAB seg hs).length_eq
  have h3 := hAB.length_eq
  simp only [List.length_append] at h1
  omega

/-- The child of two parents that hold the same cities, once each, holds these cities, once
each, whatever the bounds of the sub-segment. -/
theorem crossover_perm {A B : List Nat} (hA : A.Nodup) (hAB : B.Perm A) (lo hi : Nat) :
    (crossover A B lo hi).Perm A := by
  have hs := segment_sublist lo hi A 0
  have h1 := fillFrom_perm lo hi A 0 _ (rest_length hA hAB _ hs)
  have h2 := filter_segment_perm hA hAB _ hs
  have h3 := List.filter_append_perm (fun c => (segment lo hi 0 A).contains c) B
  exact (h1.trans ((h2.symm.append_right _).trans h3)).trans hAB

/-- Exchanging the cities at two positions of a tour keeps its cities. -/
theorem swapAt_perm (tour : List Nat) (i j : Nat) (hi : i < tour.length)
    (hj : j < tour.length) : (swapAt tour i j).Perm tour := by
  rw [List.perm_iff_count]
  intro b
  have hj1 : j < (tour.set i (tour.getD j 0)).length := by simpa using hj
  have hget : (tour.set i (tour.getD j 0))[j] = tour[j] := by
    rw [List.getElem_set]
    split_ifs with h
    · subst h; exact List.getD_eq_getElem _ _ hj
    · rfl
  have hpos : (if tour[i] == b then 1 else 0) ≤ tour.count b := by
    split_ifs with h
    · have : tour[i] = b := by simpa using h
      have hm : b ∈ tour := this ▸ List.getElem_mem hi
      exact List.count_pos_iff.mpr hm
    · exact Nat.zero_le _
  simp only [swapAt]
  rw [List.count_set _ _ _ _ hj1, List.count_set _ _ _ _ hi, hget,
    List.getD_eq_getElem _ _ hj, List.getD_eq_getElem _ _ hi]
  omega

theorem segment_in (lo hi : Nat) :
    ∀ (as : List Nat) (i : Nat), lo ≤ i → segment lo hi i as = as.take (hi - i) := by
  intro as
  induction as with
  | nil => intro i _; simp [segment]
  | cons a as ih =>
    intro i hlo
    by_cases hc : i < hi
    · have h1 : hi - i = (hi - (i + 1)) + 1 := by omega
      simp only [segment, if_pos (And.intro hlo hc), ih (i + 1) (by omega)]
      rw [h1, List.take_succ_cons]
    · have h1 : hi - i = 0 := by omega
      have h2 : hi - (i + 1) = 0 := by omega
      simp only [segment, if_neg (fun h : lo ≤ i ∧ i < hi => hc h.2), ih (i + 1) (by omega),
        h1, h2, List.take_zero]

/-- The sub-segment `[lo, hi)` of a tour, read from a position `i` before it. -/
theorem segment_before (lo hi : Nat) :
    ∀ (as : List Nat) (i : Nat), i ≤ lo →
      segment lo hi i as = (as.drop (lo - i)).take (hi - lo) := by
  intro as
  induction as with
  | nil => intro i _; simp [segment]
  | cons a as ih =>
    intro i hlo
    by_cases hc : i < lo
    · have h1 : lo - i = (lo - (i + 1)) + 1 := by omega
      simp only [segment, if_neg (fun h : lo ≤ i ∧ i < hi => absurd h.1 (by omega)),
        ih (i + 1) (by omega)]
      rw [h1, List.drop_succ_cons]
    · have h1 : i = lo := by omega
      rw [h1, segment_in lo hi _ _ (le_refl _)]
      simp

theorem fillFrom_after (lo hi : Nat) :
    ∀ (as : List Nat) (i : Nat) (rest : List Nat), hi ≤ i → rest.length = as.length →
      fillFrom lo hi i as rest = rest := by
  intro as
  induction as with
  | nil =>
    intro i rest _ h
    simp only [List.length_nil, List.length_eq_zero] at h
    subst h
    rfl
  | cons a as ih =>
    intro i rest hhi h
    cases rest with
    | nil => simp at h
    | cons c cs =>
      simp only [List.length_cons, add_left_inj] at h
      simp only [fillFrom, if_neg (fun h : lo ≤ i ∧ i < hi => absurd h.2 (by omega)),
        ih (i + 1) cs (by omega) h]

theorem fillFrom_in (lo hi : Nat) :
    ∀ (as : List Nat) (i : Nat) (rest : List Nat), lo ≤ i → i ≤ hi →
      rest.length + (hi - i) = as.length →
      fillFrom lo hi i as rest = as.take (hi - i) ++ rest := by
  intro as
  induction as with
  | nil =>
    intro i rest _ _ h
    simp only [List.length_nil, Nat.add_eq_zero, List.length_eq_zero] at h
    rw [h.1]
    simp [fillFrom]
  | cons a as ih =>
    intro i rest hlo hhi h
    simp only [List.length_cons] at h
    by_cases hc : i < hi
    · have h1 : hi - i = (hi - (i + 1)) + 1 := by omega
      simp only [fillFrom, if_pos (And.intro hlo hc),
        ih (i + 1) rest (by omega) (by omega) (by omega)]
      rw [h1, List.take_succ_cons, List.cons_append]
    · have h1 : hi - i = 0 := by omega
      rw [fillFrom_after lo hi _ i rest (by omega) (by simp only [List.length_cons]; omega), h1]
      rfl

/-- The child, built from a position `i` before the sub-segment: the first cities of `rest`
up to the sub-segment, the sub-segment of parentA, the other cities of `rest`. -/
theorem fillFrom_before (lo hi : Nat) (hle : lo ≤ hi) :
    ∀ (as : List Nat) (i : Nat) (rest : List Nat), i ≤ lo → hi ≤ i + as.length →
      rest.length + (hi - lo) = as.length →
      fillFrom lo hi i as rest =
        rest.take (lo - i) ++ (as.drop (lo - i)).take (hi - lo) ++ rest.drop (lo - i) := by
  intro as
  induction as with
  | nil =>
    intro i rest _ _ h
    simp only [List.length_nil, Nat.add_eq_zero, List.length_eq_zero] at h
    rw [h.1]
    simp [fillFrom]
  | cons a as ih =>
    intro i rest hlo hhi h
    simp only [List.length_cons] at h hhi
    by_cases hc : i < lo
    · have h1 : lo - i = (lo - (i + 1)) + 1 := by omega
      cases rest with
      | nil => simp only [List.length_nil] at h; omega
      | cons c cs =>
        simp only [List.length_cons] at h
        simp only [fillFrom, if_neg (fun h : lo ≤ i ∧ i < hi => absurd h.1 (by omega)),
          ih (i + 1) cs (by omega) (by omega) (by omega)]
        rw [h1, List.take_succ_cons, List.drop_succ_cons, List.drop_succ_cons]
        simp
    · have h1 : i = lo := by omega
      rw [h1, fillFrom_in lo hi _ lo rest (le_refl _) hle
        (by simp only [List.length_cons]; omega)]
      simp

/-- The modelled crossover in closed form, for parents that hold the same cities, once each,
and a sub-segment `[lo, hi)` inside the tour: the first `lo` cities of parentB outside the
sub-segment, the sub-segment of parentA, the other cities of parentB outside it. A full
sub-segment gives parentA, an empty one parentB. -/
theorem crossover_closed_form {A B : List Nat} (hA : A.Nodup) (hAB : B.Perm A) {lo hi : Nat}
    (hle : lo ≤ hi) (hhi : hi ≤ A.length) :
    crossover A B lo hi =
      (B.filter (fun c => !((A.drop lo).take (hi - lo)).contains c)).take lo ++
        (A.drop lo).take (hi - lo) ++
        (B.filter (fun c => !((A.drop lo).take (hi - lo)).contains c)).drop lo := by
  have hseg : segment lo hi 0 A = (A.drop lo).take (hi - lo) :=
    segment_before lo hi A 0 (Nat.zero_le _)
  have hlen := rest_length hA hAB _ (segment_sublist lo hi A 0)
  rw [hseg] at hlen
  have hl : ((A.drop lo).take (hi - lo)).length = hi - lo := by
    simp only [List.length_take, List.length_drop]
    omega
  rw [hl] at hlen
  have := fillFrom_before lo hi hle A 0 _ (Nat.zero_le _) (by omega) hlen
  simp only [crossover, hseg]
  exact this

/-! ## The claims about `terminate` -/

/-- C2: for all integers `num_iterations`, `stale_iterations` and every finite fitness `q`,
`terminate` returns true exactly when `num_iterations = MAX_ITERATIONS = 10000`, or
`q - BEST_PATH <= EPSILON * BEST_PATH` (which, with `EPSILON = 0` and `BEST_PATH = 847`, is
`q <= 847`), or `stale_iterations = MAX_STALE = 1000`; so each of the two documented
conditions alone is sufficient. -/
theorem terminate_spec (num_iterations stale_iterations : Int) (q : ℚ) :
    (terminate num_iterations (Double.fin q) stale_iterations = true ↔
      num_iterations = 10000 ∨ q - 847 ≤ 0 * 847 ∨ stale_iterations = 1000) ∧
    (terminate num_iterations (Double.fin q) stale_iterations = true ↔
      num_iterations = 10000 ∨ q ≤ 847 ∨ stale_iterations = 1000) ∧
    MAX_ITERATIONS = 10000 ∧ BEST_PATH = 847 ∧ EPSILON = 0 ∧ MAX_STALE = 1000 ∧
    terminate MAX_ITERATIONS (Double.fin q) stale_iterations = true ∧
    terminate num_iterations (Double.fin (min q 847)) stale_iterations = true := by
  have key : terminate num_iterations (Double.fin q) stale_iterations = true ↔
      num_iterations = 10000 ∨ q - 847 ≤ 0 * 847 ∨ stale_iterations = 1000 := by
    rw [terminate_eq_true_iff, fitness_test_fin]
    simp [MAX_ITERATIONS, MAX_STALE]
  refine ⟨key, ?_, rfl, rfl, rfl, rfl, ?_, ?_⟩
  · rw [key]
    have : q - 847 ≤ 0 * 847 ↔ q ≤ 847 := by
      constructor <;> intro h <;> linarith
    rw [this]
  · rw [terminate_eq_true_iff]; exact Or.inl rfl
  · rw [terminate_eq_true_iff, fitness_test_fin]
    refine Or.inr (Or.inl ?_)
    have : min q 847 ≤ 847 := min_le_right _ _
    linarith

/-! ## Runs on the concrete populations -/

theorem solvedPop_cond : (loopCond solvedPop (setup solvedPop 0)).1 = true := by
  simp [loopCond_fst, terminate, setup, solvedPop, seqPop, Double.le, Double.sub,
    Double.ofInt, BEST_PATH, EPSILON, MAX_ITERATIONS]

theorem solvedPop_main (r : MainState Nat) (h : main solvedPop 0 (10001 + 0) = some r) :
    r.calls = [Event.Genesis, Event.Evaluate, Event.Merge true, Event.Fittest,
      Event.terminate true, Event.Fittest, Event.Avg_Fitness, Event.Fittest] := by
  have h1 : main solvedPop 0 (10001 + 0) =
      some (epilogue solvedPop (loopCond solvedPop (setup solvedPop 0)).2) := by
    show (evolve solvedPop (10000 + 1) (setup solvedPop 0)).map (epilogue solvedPop) = _
    rw [evolve_succ, if_pos solvedPop_cond]
    rfl
  rw [h1] at h
  simp only [Option.some.injEq] at h
  rw [← h, epilogue_calls, solvedPop_cond]
  rfl

theorem terminate_fin_eq_false_iff (n s : Int) (c : ℚ) :
    terminate n (Double.fin c) s = false ↔ n ≠ MAX_ITERATIONS ∧ 847 < c ∧ s ≠ MAX_STALE := by
  rw [← Bool.not_eq_true, terminate_eq_true_iff, fitness_test_fin]
  simp only [not_or, ne_eq]
  constructor
  · rintro ⟨h1, h2, h3⟩
    exact ⟨h1, by linarith [not_le.mp h2], h3⟩
  · rintro ⟨h1, h2, h3⟩
    exact ⟨h1, by intro h; linarith, h3⟩

theorem double_eq_fin (a b : ℚ) : Double.eq (Double.fin a) (Double.fin b) = true ↔ a = b := by
  simp [Double.eq]

/-- While the fittest raw fitness stays at one value `c` above 847, from the initial
generation on, the loop keeps running for 1001 iterations: the first one records `c` in
`last_fitness` (which starts at 0) and leaves `stale_iterations` at 0, each later one adds
one to `stale_iterations`. -/
theorem steady_run (P : Population σ) (pop0 : σ) (c : ℚ) (hc : 847 < c) :
    ∀ i : Nat, i ≤ 1000 → (∀ j ≤ i + 1, fitnessAt P pop0 j = Double.fin c) →
      ∃ st, loopHead P pop0 (i + 1) = some st ∧ st.num_iterations = (i : Int) + 1 ∧
        st.stale_iterations = (i : Int) ∧ st.last_fitness = Double.fin c := by
  intro i
  induction i with
  | zero =>
    intro _ hf
    have h0 : loopHead P pop0 0 = some (setup P pop0) := rfl
    have hf0 : P.Fittest_Raw_Fitness (setup P pop0).tsp_pop = Double.fin c :=
      hf 0 (by omega)
    have hf1 : P.Fittest_Raw_Fitness (nextPop P (setup P pop0).tsp_pop) = Double.fin c :=
      hf 1 (by omega)
    have hb : (loopCond P (setup P pop0)).1 = false := by
      rw [loopCond_fst, hf0, terminate_fin_eq_false_iff]
      simp [setup, MAX_ITERATIONS, MAX_STALE, hc]
    have hne : ¬ Double.eq (Double.fin c) (setup P pop0).last_fitness = true := by
      simp only [setup, Double.ofInt, double_eq_fin]
      intro h0c
      rw [h0c] at hc
      norm_num at hc
    refine ⟨_, loopHead_succ_of h0 hb, ?_, ?_, ?_⟩
    · rw [loopBody_num, loopCond_snd]; simp [setup]
    · rw [loopBody_stale, loopCond_snd]
      simp only [hf1, if_neg hne]
      rfl
    · rw [loopBody_last, loopCond_snd]
      simp only [hf1, if_neg hne]
  | succ i ih =>
    intro hi hf
    obtain ⟨st, h1, h2, h3, h4⟩ := ih (by omega) (fun j hj => hf j (by omega))
    have hpop := (head_counters P pop0 (i + 1) st h1).2.2.2.2.1
    have hf0 : P.Fittest_Raw_Fitness st.tsp_pop = Double.fin c := by
      rw [hpop]; exact hf (i + 1) (by omega)
    have hf1 : P.Fittest_Raw_Fitness (nextPop P st.tsp_pop) = Double.fin c := by
      rw [hpop]; exact hf (i + 1 + 1) (by omega)
    have hb : (loopCond P st).1 = false := by
      rw [loopCond_fst, hf0, terminate_fin_eq_false_iff, h2, h3]
      simp only [MAX_ITERATIONS, MAX_STALE]
      refine ⟨by omega, hc, by omega⟩
    have heq : Double.eq (Double.fin c) st.last_fitness = true := by
      rw [h4, double_eq_fin]
    refine ⟨_, loopHead_succ_of h1 hb, ?_, ?_, ?_⟩
    · rw [loopBody_num, loopCond_snd]; simp [h2]
    · rw [loopBody_stale, loopCond_snd]
      simp only [hf1, if_pos heq, h3]
      push_cast; rfl
    · rw [loopBody_last, loopCond_snd]
      simp only [hf1, h4, ite_self]

theorem popAt_seqPop (f : Nat → Double) (g n : Nat) : popAt (seqPop f) g n = g + n := by
  induction n with
  | zero => rfl
  | succ n ih =>
    show (popAt (seqPop f) g n) + 1 = g + (n + 1)
    rw [ih]; rfl

theorem fitnessAt_seqPop (f : Nat → Double) (g n : Nat) :
    fitnessAt (seqPop f) g n = f (g + n) := by
  show f (popAt (seqPop f) g n) = f (g + n)
  rw [popAt_seqPop]

/-- The population stuck at 900 reaches the head of the loop after 1001 iterations, with
`stale_iterations = 1000`. -/
theorem stuckPop_head :
    ∃ st, loopHead stuckPop 0 1001 = some st ∧ st.num_iterations = 1001 ∧
      st.stale_iterations = 1000 ∧ st.tsp_pop = 1001 := by
  obtain ⟨st, h1, h2, h3, _⟩ := steady_run stuckPop 0 900 (by norm_num) 1000 (le_refl _)
    (fun j _ => rfl)
  have hpop := (head_counters stuckPop 0 1001 st h1).2.2.2.2.1
  refine ⟨st, h1, ?_, ?_, ?_⟩
  · rw [h2]; norm_num
  · rw [h3]; norm_num
  · rw [hpop]; exact (popAt_seqPop _ 0 1001).trans (by norm_num)

/-- The population with a blip in generation 1000 reaches the head of the loop after 1001
iterations, with `stale_iterations = 0`. -/
theorem blipPop_head :
    ∃ st, loopHead blipPop 0 1001 = some st ∧ st.num_iterations = 1001 ∧
      st.stale_iterations = 0 ∧ st.tsp_pop = 1001 := by
  have hfit : ∀ j, fitnessAt blipPop 0 j =
      if j = 1000 then Double.fin 901 else Double.fin 900 := by
    intro j
    rw [blipPop, fitnessAt_seqPop]
    simp
  obtain ⟨st, h1, h2, h3, h4⟩ := steady_run blipPop 0 900 (by norm_num) 998 (by omega)
    (fun j hj => by rw [hfit, if_neg (by omega)])
  have hpop := (head_counters blipPop 0 999 st h1).2.2.2.2.1
  -- iteration 1000: the fitness changes to 901
  have hf0 : blipPop.Fittest_Raw_Fitness st.tsp_pop = Double.fin 900 := by
    rw [hpop]; exact (hfit 999).trans (if_neg (by omega))
  have hf1 : blipPop.Fittest_Raw_Fitness (nextPop blipPop st.tsp_pop) = Double.fin 901 := by
    rw [hpop]; exact (hfit 1000).trans (if_pos rfl)
  have hb : (loopCond blipPop st).1 = false := by
    rw [loopCond_fst, hf0, terminate_fin_eq_false_iff, h2, h3]
    simp only [MAX_ITERATIONS, MAX_STALE]
    norm_num
  have hne : ¬ Double.eq (Double.fin 901) st.last_fitness = true := by
    rw [h4, double_eq_fin]; norm_num
  have k1 := loopHead_succ_of h1 hb
  have k2 : (loopBody blipPop (loopCond blipPop st).2).num_iterations = 1000 := by
    rw [loopBody_num, loopCond_snd]; simp only [h2]; norm_num
  have k3 : (loopBody blipPop (loopCond blipPop st).2).stale_iterations = 0 := by
    rw [loopBody_stale, loopCond_snd]
    simp only [hf1, if_neg hne]
  have k4 : (loopBody blipPop (loopCond blipPop st).2).last_fitness = Double.fin 901 := by
    rw [loopBody_last, loopCond_snd]
    simp only [hf1, if_neg hne]
  -- iteration 1001: the fitness changes back to 900
  generalize loopBody blipPop (loopCond blipPop st).2 = st1 at k1 k2 k3 k4
  have hpop1 := (head_counters blipPop 0 1000 st1 k1).2.2.2.2.1
  have hg0 : blipPop.Fittest_Raw_Fitness st1.tsp_pop = Double.fin 901 := by
    rw [hpop1]; exact (hfit 1000).trans (if_pos rfl)
  have hg1 : blipPop.Fittest_Raw_Fitness (nextPop blipPop st1.tsp_pop) = Double.fin 900 := by
    rw [hpop1]; exact (hfit 1001).trans (if_neg (by omega))
  have hb1 : (loopCond blipPop st1).1 = false := by
    rw [loopCond_fst, hg0, terminate_fin_eq_false_iff, k2, k3]
    simp only [MAX_ITERATIONS, MAX_STALE]
    norm_num
  have hne1 : ¬ Double.eq (Double.fin 900) st1.last_fitness = true := by
    rw [k4, double_eq_fin]; norm_num
  refine ⟨_, loopHead_succ_of k1 hb1, ?_, ?_, ?_⟩
  · rw [loopBody_num, loopCond_snd]; simp only [k2]; norm_num
  · rw [loopBody_stale, loopCond_snd]
    simp only [hg1, if_neg hne1]
  · rw [(head_counters blipPop 0 1001 _ (loopHead_succ_of k1 hb1)).2.2.2.2.1]
    exact (popAt_seqPop _ 0 1001).trans (by norm_num)

theorem loopHead_none_add {P : Population σ} {pop0 : σ} {n : Nat}
    (h : loopHead P pop0 n = none) : ∀ m : Nat, loopHead P pop0 (n + m) = none := by
  intro m
  induction m with
  | zero => exact h
  | succ m ih =>
    show loopHead P pop0 (n + m + 1) = none
    simp [loopHead, ih]

/-- The loop has one exit: no head is reached beyond the first one whose termination check
returns true. -/
theorem exit_unique {P : Population σ} {pop0 : σ} {k k1 : Nat} {st st1 : MainState σ}
    (h : loopHead P pop0 k = some st) (hb : (loopCond P st).1 = true)
    (h1 : loopHead P pop0 k1 = some st1) : k1 ≤ k := by
  by_contra hlt
  have hk : k1 = (k + 1) + (k1 - (k + 1)) := by omega
  have := loopHead_none_add (loopHead_succ_none h hb) (k1 - (k + 1))
  rw [← hk, h1] at this
  exact Option.noConfusion this

theorem stuckPop_exit :
    ∃ st, loopHead stuckPop 0 1001 = some st ∧ (loopCond stuckPop st).1 = true ∧
      st.num_iterations = 1001 ∧ st.stale_iterations = 1000 := by
  obtain ⟨st, h1, h2, h3, _⟩ := stuckPop_head
  refine ⟨st, h1, ?_, h2, h3⟩
  rw [loopCond_fst, terminate_eq_true_iff, h3]
  exact Or.inr (Or.inr rfl)

/-! ## The claims about the driver -/

/-- C1: in every run of `main`, over any population, the lifecycle calls are exactly
Genesis, Evaluate, Merge(true), then `k` times (Reproduce, Evaluate, Merge(false)), where `k`
is the number of iterations of the evolve loop that were executed (the loop condition first
returns true at the head reached after `k` iterations); Merge(true) is called exactly once
and is the first Merge; every Reproduce comes right after a termination check that returned
false. The run itself exists: `main` returns with any fuel above 10000. -/
theorem main_lifecycle_calls (P : Population σ) (pop0 : σ) (extra : Nat) :
    ∃ (k : Nat) (st r : MainState σ),
      loopHead P pop0 k = some st ∧ (loopCond P st).1 = true ∧
      main P pop0 (10001 + extra) = some r ∧
      r.calls.filter Event.isLifecycle =
        [Event.Genesis, Event.Evaluate, Event.Merge true] ++
          (List.replicate k [Event.Reproduce, Event.Evaluate, Event.Merge false]).flatten ∧
      r.calls.count (Event.Merge true) = 1 ∧
      (r.calls.filter Event.isMerge).head? = some (Event.Merge true) ∧
      (∀ pre post, r.calls = pre ++ Event.Reproduce :: post →
        ∃ pre1, pre = pre1 ++ [Event.terminate false]) := by
  obtain ⟨k, st, _, h1, h2, h3⟩ := main_result P pop0 extra
  have hl := final_lifecycle h1
  refine ⟨k, st, _, h1, h2, h3, hl, ?_, ?_, (final_trace h1).2⟩
  · rw [count_eq_count_lifecycle _ (Event.Merge true) rfl, hl, List.count_append,
      (count_rounds k).1]
    decide
  · rw [filter_merge_lifecycle, hl]
    simp [Event.isMerge]

/-- A run of C1 on the population that starts out optimal: no iteration, and the lifecycle
calls are Genesis, Evaluate, Merge(true). -/
theorem main_lifecycle_calls_witness :
    ∃ (k : Nat) (st r : MainState Nat),
      loopHead solvedPop 0 k = some st ∧ (loopCond solvedPop st).1 = true ∧
      main solvedPop 0 (10001 + 0) = some r ∧
      r.calls.filter Event.isLifecycle =
        [Event.Genesis, Event.Evaluate, Event.Merge true] ++
          (List.replicate k [Event.Reproduce, Event.Evaluate, Event.Merge false]).flatten ∧
      r.calls.count (Event.Merge true) = 1 ∧
      (r.calls.filter Event.isMerge).head? = some (Event.Merge true) ∧
      (∀ pre post, r.calls = pre ++ Event.Reproduce :: post →
        ∃ pre1, pre = pre1 ++ [Event.terminate false]) :=
  main_lifecycle_calls solvedPop 0 0

/-- C3: the evolve loop stops when MAX_ITERATIONS is reached. Over any population, `main`
returns (with any fuel above 10000) after some `k ≤ 10000` iterations of the loop, `k` being
the final value of `num_iterations` and the number of calls to Reproduce; at the head of the
loop after `n` iterations `num_iterations` is `n` and `n ≤ 10000`; no head is reached after
more than 10000 iterations. -/
theorem evolve_loop_bounded (P : Population σ) (pop0 : σ) (extra : Nat) :
    (∃ (k : Nat) (st r : MainState σ), k ≤ 10000 ∧
      loopHead P pop0 k = some st ∧ (loopCond P st).1 = true ∧
      main P pop0 (10001 + extra) = some r ∧
      r.num_iterations = (k : Int) ∧ r.calls.count Event.Reproduce = k) ∧
    (∀ (n : Nat) (st : MainState σ), loopHead P pop0 n = some st →
      n ≤ 10000 ∧ st.num_iterations = (n : Int) ∧ st.num_iterations ≤ MAX_ITERATIONS) ∧
    (∀ n : Nat, loopHead P pop0 (10001 + n) = none) ∧ MAX_ITERATIONS = 10000 := by
  have hb : ∀ (n : Nat) (st : MainState σ), loopHead P pop0 n = some st →
      n ≤ 10000 ∧ st.num_iterations = (n : Int) ∧ st.num_iterations ≤ MAX_ITERATIONS := by
    intro n st h
    obtain ⟨h1, h2, _⟩ := head_counters P pop0 n st h
    refine ⟨?_, h1, by rw [h1]; exact h2⟩
    simp only [MAX_ITERATIONS] at h2
    omega
  refine ⟨?_, hb, ?_, rfl⟩
  · obtain ⟨k, st, h0, h1, h2, h3⟩ := main_result P pop0 extra
    refine ⟨k, st, _, h0, h1, h2, h3, ?_, ?_⟩
    · rw [epilogue_num]; exact (hb k st h1).2.1
    · rw [count_eq_count_lifecycle _ Event.Reproduce rfl, final_lifecycle h1, List.count_append,
        (count_rounds k).2]
      simp
  · intro n
    cases h : loopHead P pop0 (10001 + n) with
    | none => rfl
    | some st =>
      have := (hb _ st h).1
      omega

/-- An instance of C3: the head of the loop of the population stuck at 900, before any
iteration. -/
theorem evolve_loop_bounded_witness :
    0 ≤ 10000 ∧ (setup stuckPop 0).num_iterations = ((0 : Nat) : Int) ∧
      (setup stuckPop 0).num_iterations ≤ MAX_ITERATIONS :=
  (evolve_loop_bounded stuckPop 0 0).2.1 0 (setup stuckPop 0) rfl

/-- C6: in every run of `main`, over any population, every call to Merge, Fittest() or
Avg_Fitness() (those of `log` and of the loop condition included) is made in the Evaluated
state: among the calls made before it there is an Evaluate, and no Genesis or Reproduce
follows the most recent Evaluate. -/
theorem main_queries_evaluated (P : Population σ) (pop0 : σ) (extra : Nat) :
    ∃ r : MainState σ, main P pop0 (10001 + extra) = some r ∧
      ∀ (pre : List Event) (e : Event) (post : List Event), r.calls = pre ++ e :: post →
        (e = Event.Fittest ∨ e = Event.Avg_Fitness ∨ ∃ b, e = Event.Merge b) →
        ∃ p1 p2, pre = p1 ++ Event.Evaluate :: p2 ∧ Event.Evaluate ∉ p2 ∧
          Event.Genesis ∉ p2 ∧ Event.Reproduce ∉ p2 := by
  obtain ⟨k, st, _, h1, _, h3⟩ := main_result P pop0 extra
  refine ⟨_, h3, ?_⟩
  intro pre e post hsplit he
  apply (final_trace h1).1 pre e post hsplit
  rcases he with he | he | ⟨b, he⟩ <;> subst he <;> rfl

/-- An instance of C6: on the population that starts out optimal, the first Fittest() call
(the one of the loop condition) comes after Genesis, Evaluate, Merge(true). -/
theorem main_queries_evaluated_witness :
    ∃ p1 p2, [Event.Genesis, Event.Evaluate, Event.Merge true] = p1 ++ Event.Evaluate :: p2 ∧
      Event.Evaluate ∉ p2 ∧ Event.Genesis ∉ p2 ∧ Event.Reproduce ∉ p2 := by
  obtain ⟨r, hr, h⟩ := main_queries_evaluated solvedPop 0 0
  exact h [Event.Genesis, Event.Evaluate, Event.Merge true] Event.Fittest
    [Event.terminate true, Event.Fittest, Event.Avg_Fitness, Event.Fittest]
    (by rw [solvedPop_main r hr]; rfl) (Or.inl rfl)

/-- C4, on the population whose fittest raw fitness is 900 in every generation: no
iteration lowers the fittest raw fitness, yet the loop executes 1001 iterations, one more
than `MAX_STALE = 1000`, before the staleness test stops it: `main` returns with
`num_iterations = 1001` after 1001 calls to Reproduce. -/
theorem stuck_population_runs_1001_iterations :
    (∀ n : Nat, fitnessAt stuckPop 0 n = Double.fin 900) ∧
    (∃ st, loopHead stuckPop 0 1001 = some st ∧ (loopCond stuckPop st).1 = true ∧
      st.stale_iterations = MAX_STALE) ∧
    (∀ extra : Nat, ∃ r, main stuckPop 0 (10001 + extra) = some r ∧
      r.num_iterations = 1001 ∧ r.calls.count Event.Reproduce = 1001) ∧
    MAX_STALE = 1000 := by
  obtain ⟨st, h1, h2, h3, h4⟩ := stuckPop_exit
  refine ⟨fun _ => rfl, ⟨st, h1, h2, h4⟩, ?_, rfl⟩
  intro extra
  obtain ⟨k, st1, _, g1, g2, g3⟩ := main_result stuckPop 0 extra
  have hk : k = 1001 := le_antisymm (exit_unique h1 h2 g1) (exit_unique g1 g2 h1)
  subst hk
  refine ⟨_, g3, ?_, ?_⟩
  · rw [epilogue_num, (head_counters stuckPop 0 1001 st1 g1).1]; rfl
  · rw [count_eq_count_lifecycle _ Event.Reproduce rfl, final_lifecycle g1, List.count_append,
      (count_rounds 1001).2]
    simp

/-- C5 fails as stated: two runs of the driver reach the loop condition with the same
`num_iterations` (1001) and the same fittest raw fitness (900); in the first one
(`stale_iterations = 1000`) the check returns true and Reproduce is not called again, in the
second one (`stale_iterations = 0`) it returns false and Reproduce is called again. -/
theorem termination_depends_on_stale :
    ∃ st1 st2 : MainState Nat,
      loopHead stuckPop 0 1001 = some st1 ∧ loopHead blipPop 0 1001 = some st2 ∧
      st1.num_iterations = st2.num_iterations ∧
      stuckPop.Fittest_Raw_Fitness st1.tsp_pop = blipPop.Fittest_Raw_Fitness st2.tsp_pop ∧
      (loopCond stuckPop st1).1 = true ∧ (loopCond blipPop st2).1 = false := by
  obtain ⟨st1, h1, h2, h3, _⟩ := stuckPop_exit
  obtain ⟨st2, g1, g2, g3, g4⟩ := blipPop_head
  have hf : blipPop.Fittest_Raw_Fitness st2.tsp_pop = Double.fin 900 := by
    rw [g4]
    show (if (1001 : Nat) = 1000 then Double.fin 901 else Double.fin 900) = Double.fin 900
    rw [if_neg (by omega)]
  refine ⟨st1, st2, h1, g1, by rw [h3, g2], hf.symm, h2, ?_⟩
  rw [loopCond_fst, hf, terminate_fin_eq_false_iff, g2, g3]
  simp only [MAX_ITERATIONS, MAX_STALE]
  norm_num

/-- C5, amended: the decision of the termination check is determined by `num_iterations`,
the fittest raw fitness and whether `stale_iterations` has reached `MAX_STALE`: two
evaluations of the loop condition (in any two runs, over any two populations) that agree on
these three return the same result. -/
theorem termination_check_determined {τ : Type} (P1 : Population σ) (P2 : Population τ)
    (st1 : MainState σ) (st2 : MainState τ)
    (hn : st1.num_iterations = st2.num_iterations)
    (hf : P1.Fittest_Raw_Fitness st1.tsp_pop = P2.Fittest_Raw_Fitness st2.tsp_pop)
    (hs : st1.stale_iterations = MAX_STALE ↔ st2.stale_iterations = MAX_STALE) :
    (loopCond P1 st1).1 = (loopCond P2 st2).1 := by
  rw [loopCond_fst, loopCond_fst, Bool.eq_iff_iff, terminate_eq_true_iff,
    terminate_eq_true_iff, hn, hf, hs]

/-- An instance of the amended C5: the first evaluation of the loop condition in the runs on
the stuck population and on the population with a blip. -/
theorem termination_check_determined_witness :
    (loopCond stuckPop (setup stuckPop 0)).1 = (loopCond blipPop (setup blipPop 0)).1 :=
  termination_check_determined stuckPop blipPop (setup stuckPop 0) (setup blipPop 0) rfl
    (by
      show Double.fin 900 = (if (0 : Nat) = 1000 then Double.fin 901 else Double.fin 900)
      rw [if_neg (by omega)])
    (by simp [setup, MAX_STALE])

/-! ## The claims about the genetic operators -/

/-- C8: for every N, all parents A and B that are permutations of `[0, N)` and all bounds
`lo`, `hi` of the sub-segment, the child of the crossover is a permutation of `[0, N)`; and
for every tour that is a permutation of `[0, N)`, every rate, every draw and every two
positions `i`, `j` of the tour, the tour after `mutate` is a permutation of `[0, N)`. -/
theorem permutation_invariant (N : Nat) (A B tour : List Nat) (lo hi : Nat) (rate draw : ℚ)
    (hA : A.Perm (List.range N)) (hB : B.Perm (List.range N))
    (ht : tour.Perm (List.range N)) :
    (crossover A B lo hi).Perm (List.range N) ∧
      ∀ i j : Nat, i < N → j < N → (mutate tour rate draw i j).Perm (List.range N) := by
  constructor
  · exact (crossover_perm (hA.nodup_iff.mpr (List.nodup_range N)) (hB.trans hA.symm) lo hi).trans
      hA
  · intro i j hi1 hj1
    have hlen : tour.length = N := by rw [ht.length_eq, List.length_range]
    unfold mutate
    split_ifs
    · exact (swapAt_perm tour i j (by omega) (by omega)).trans ht
    · exact ht

/-- An instance of C8 with five cities: a crossover on the sub-segment [1,3) and a mutation
that fires and exchanges the positions 1 and 3. -/
theorem permutation_invariant_witness :
    (crossover [0, 1, 2, 3, 4] [4, 3, 2, 1, 0] 1 3).Perm (List.range 5) ∧
      (mutate [0, 1, 2, 3, 4] 1 (1 / 2) 1 3).Perm (List.range 5) :=
  ⟨(permutation_invariant 5 [0, 1, 2, 3, 4] [4, 3, 2, 1, 0] [0, 1, 2, 3, 4] 1 3 1 (1 / 2)
      (by decide) (by decide) (by decide)).1,
    (permutation_invariant 5 [0, 1, 2, 3, 4] [4, 3, 2, 1, 0] [0, 1, 2, 3, 4] 1 3 1 (1 / 2)
      (by decide) (by decide) (by decide)).2 1 3 (by decide) (by decide)⟩

end Tspga
